import Mathlib

/-!
Shallow embedding of the temp-logger engine (src/main.cpp).

A C++ `std::string` is modelled as `List Char`; the three in-memory logs
(`std::deque<std::string>`) are `List (List Char)`.  Machine `int` extraction
from an `istringstream` is modelled with unbounded `Int` plus an explicit
range check against `[-2^31, 2^31-1]` (C++11 `num_get` sets `failbit` on
overflow).  `std::mktime`'s local-time rules are modelled as the proleptic
Gregorian calendar at UTC: the engine only ever compares differences of
`mkTime` values produced by the same function, so the time-zone offset is
irrelevant to every property below.  `std::stod` is modelled on the decimal
part of the `strtod` grammar (sign, digits with an optional fraction dot, an
optional exponent); the hexadecimal / infinity / nan forms never arise from
this program's data and out-of-range doubles are folded into the same
"no conversion" failure that the caller treats identically (both `catch`
branches in `calculateAverageTemperature` just skip the record).
-/

/-- Whitespace test matching `std::isspace` in the "C" locale, used by
formatted `istream` extraction to skip leading whitespace. -/
def isSpaceChar (c : Char) : Bool :=
  c = ' ' || c = '\t' || c = '\n' || c = '\x0b' || c = '\x0c' || c = '\r'

/-- Decimal digit test matching `std::isdigit` in the "C" locale. -/
def isDigitChar (c : Char) : Bool :=
  '0' ≤ c && c ≤ '9'

/-- The character for a single decimal digit value. -/
def digitChar (n : Nat) : Char := Char.ofNat (48 + n)

/-- Fuel-driven decimal rendering of a natural number, most significant digit
first; the fuel makes the definition structurally recursive so that it
evaluates inside the kernel.  `natDigits` always supplies enough fuel. -/
def natDigitsAux : Nat → Nat → List Char
  | 0, _ => []
  | fuel + 1, n =>
    if n < 10 then [digitChar n]
    else natDigitsAux fuel (n / 10) ++ [digitChar (n % 10)]

/-- Decimal rendering of a natural number, as `operator<<` prints it. -/
def natDigits (n : Nat) : List Char := natDigitsAux (n + 1) n

/-- Decimal rendering of an `int`, as `std::ostream::operator<<` prints it. -/
def intToDecString (i : Int) : List Char :=
  if i < 0 then '-' :: natDigits i.natAbs else natDigits i.toNat

/-- Numeric value of a list of decimal digit characters, most significant
first: exactly the accumulation an `istream` integer extraction performs. -/
def digitsVal (ds : List Char) : Nat :=
  ds.foldl (fun a c => 10 * a + (c.toNat - 48)) 0

/-- Skip leading "C"-locale whitespace, as formatted extraction does. -/
def skipWs (cs : List Char) : List Char := cs.dropWhile isSpaceChar

/-- The next character to read is not a digit (or there is none): the
condition under which an integer extraction stops exactly here. -/
def headNotDigit : List Char → Bool
  | [] => true
  | c :: _ => !isDigitChar c

/-- `INT_MAX` for the 32-bit `int` fields of `std::tm`. -/
def intMax : Int := 2 ^ 31 - 1

/-- `INT_MIN` for the 32-bit `int` fields of `std::tm`. -/
def intMin : Int := -(2 ^ 31)

/-- Digit-run consumption of `istream >> int` after the optional sign:
fails when no digit is present or the value does not fit in `int`
(C++11 `num_get` sets `failbit` on overflow). -/
def readIntAux (cs : List Char) (neg : Bool) : Option (Int × List Char) :=
  let ds := cs.takeWhile isDigitChar
  if ds.isEmpty then none
  else
    let v : Int := if neg then -(digitsVal ds : Int) else (digitsVal ds : Int)
    if v < intMin ∨ intMax < v then none else some (v, cs.dropWhile isDigitChar)

/-- Model of `istringstream >> (int&)`: skip whitespace, optional sign,
then a non-empty digit run. -/
def readInt (cs : List Char) : Option (Int × List Char) :=
  match skipWs cs with
  | [] => none
  | c :: rest =>
    if c = '-' then readIntAux rest true
    else if c = '+' then readIntAux rest false
    else readIntAux (c :: rest) false

/-- Model of `istringstream >> (char&)`: skip whitespace, take one char. -/
def readChar (cs : List Char) : Option (Char × List Char) :=
  match skipWs cs with
  | [] => none
  | c :: rest => some (c, rest)

/-- The `std::tm` fields the program reads and writes (`tm_year` is
years since 1900 and `tm_mon` is 0-based, exactly as in `<ctime>`). -/
structure Tm where
  tm_year : Int
  tm_mon : Int
  tm_mday : Int
  tm_hour : Int
  tm_min : Int
  tm_sec : Int
deriving DecidableEq, Repr

/-- Embedding of `parseTime` (src/main.cpp:65-79): reject strings shorter
than 19 characters, then extract
`year >> delim >> mon >> delim >> mday >> hour >> delim >> min >> delim >> sec`
(note: no delimiter extraction between `tm_mday` and `tm_hour`; the integer
extraction's own whitespace skipping is what crosses that gap), finally
shift to `std::tm` conventions. -/
def parseTime (time_str : List Char) : Option Tm :=
  if time_str.length < 19 then none
  else
    match readInt time_str with
    | none => none
    | some (y, r1) =>
      match readChar r1 with
      | none => none
      | some (_, r2) =>
        match readInt r2 with
        | none => none
        | some (mon, r3) =>
          match readChar r3 with
          | none => none
          | some (_, r4) =>
            match readInt r4 with
            | none => none
            | some (mday, r5) =>
              match readInt r5 with
              | none => none
              | some (hour, r6) =>
                match readChar r6 with
                | none => none
                | some (_, r7) =>
                  match readInt r7 with
                  | none => none
                  | some (mi, r8) =>
                    match readChar r8 with
                    | none => none
                    | some (_, r9) =>
                      match readInt r9 with
                      | none => none
                      | some (sec, _) =>
                        some ⟨y - 1900, mon - 1, mday, hour, mi, sec⟩

/-- Leap-year test of the Gregorian calendar. -/
def isLeap (y : Int) : Bool := (y % 4 == 0 && y % 100 != 0) || y % 400 == 0

/-- Number of leap years in `[1, n]`. -/
def leapCount (n : Int) : Int := n / 4 - n / 100 + n / 400

/-- Days before the start of each (0-based) month in a non-leap year. -/
def monthDaysBefore : List Int :=
  [0, 31, 59, 90, 120, 151, 181, 212, 243, 273, 304, 334]

/-- Model of `std::mktime` on in-range fields: seconds since the epoch of
the civil time described by the `std::tm`, with the platform's local-time
rules taken as UTC (see the header comment; only differences of `mkTime`
values matter to the engine). -/
def mkTime (tm : Tm) : Int :=
  let y := tm.tm_year + 1900
  let days := 365 * (y - 1970) + (leapCount (y - 1) - leapCount 1969)
    + monthDaysBefore.getD tm.tm_mon.toNat 0
    + (if 2 ≤ tm.tm_mon ∧ isLeap y = true then 1 else 0)
    + (tm.tm_mday - 1)
  ((days * 24 + tm.tm_hour) * 60 + tm.tm_min) * 60 + tm.tm_sec

/-- Embedding of `getCurrentTime` (src/main.cpp:42-62, POSIX branch): the
local calendar fields joined as `Y-M-D H:M:S.mmm` with **no zero padding**
(`tm_year + 1900`, 1-based month, then the millisecond count). -/
def getCurrentTime (tm : Tm) (ms : Nat) : List Char :=
  intToDecString (tm.tm_year + 1900) ++ '-' :: intToDecString (tm.tm_mon + 1)
    ++ '-' :: intToDecString tm.tm_mday
    ++ ' ' :: intToDecString tm.tm_hour ++ ':' :: intToDecString tm.tm_min
    ++ ':' :: intToDecString tm.tm_sec ++ '.' :: natDigits ms

/-- The record text `writeToLog` (src/main.cpp:82-85) pushes onto a log:
`getCurrentTime() + ": " + message`. -/
def writeToLogEntry (tm : Tm) (ms : Nat) (message : List Char) : List Char :=
  getCurrentTime tm ms ++ ':' :: ' ' :: message

/-- Embedding of `cleanOldEntries` (src/main.cpp:102-115): pop from the
front while the buffer is non-empty, stopping only when the front's first
19 characters parse **and** the parsed instant is younger than
`max_age_seconds`; a front record that fails to parse is popped. -/
def cleanOldEntries : List (List Char) → Int → Int → List (List Char)
  | [], _, _ => []
  | e :: rest, now, maxAge =>
    match parseTime (e.take 19) with
    | some tm =>
      if now - mkTime tm < maxAge then e :: rest
      else cleanOldEntries rest now maxAge
    | none => cleanOldEntries rest now maxAge

/-- The space-trimming `calculateAverageTemperature` applies to the trailing
field (src/main.cpp:132-133): erase the leading run of `' '`, then the
trailing run of `' '` (only the space character, as in the source). -/
def trimSpaces (cs : List Char) : List Char :=
  ((cs.dropWhile (· == ' ')).reverse.dropWhile (· == ' ')).reverse

/-- `entry.substr(entry.find_last_of(":") + 1)` (src/main.cpp:129-131):
`none` when the entry holds no colon at all. -/
def afterLastColon (cs : List Char) : Option (List Char) :=
  if cs.contains ':' then some ((cs.reverse.takeWhile (· != ':')).reverse)
  else none

/-- Value of a fraction-digit run `d₁d₂…` as `0.d₁d₂…`. -/
def fracVal (ds : List Char) : ℚ :=
  ds.foldr (fun c acc => ((c.toNat - 48 : ℕ) + acc) / 10) 0

/-- Optional exponent suffix of the `strtod` grammar: `e`/`E`, an optional
sign and a non-empty digit run scale the value; anything else (including a
dangling `e`) is not part of the longest valid prefix and is ignored. -/
def applyExp (v : ℚ) (rest : List Char) : ℚ :=
  match rest with
  | 'e' :: r | 'E' :: r =>
    let signed : Bool × List Char :=
      match r with
      | '-' :: r2 => (true, r2)
      | '+' :: r2 => (false, r2)
      | _ => (false, r)
    let ds := signed.2.takeWhile isDigitChar
    if ds.isEmpty then v
    else if signed.1 then v / 10 ^ digitsVal ds else v * 10 ^ digitsVal ds
  | _ => v

/-- Unsigned mantissa of the `strtod` grammar: a digit run, optionally a
dot and a further digit run, at least one digit in total. -/
def stodCore (cs : List Char) : Option ℚ :=
  let ip := cs.takeWhile isDigitChar
  let r1 := cs.dropWhile isDigitChar
  match r1 with
  | '.' :: r2 =>
    let fp := r2.takeWhile isDigitChar
    let r3 := r2.dropWhile isDigitChar
    if ip.isEmpty && fp.isEmpty then none
    else some (applyExp ((digitsVal ip : ℚ) + fracVal fp) r3)
  | _ => if ip.isEmpty then none else some (applyExp (digitsVal ip : ℚ) r1)

/-- Model of `std::stod`: skip whitespace, optional sign, decimal mantissa
with optional exponent; `none` when no conversion can be performed (the
`std::invalid_argument` case — see the header comment). -/
def stod (cs : List Char) : Option ℚ :=
  match skipWs cs with
  | '-' :: r => (stodCore r).map Neg.neg
  | '+' :: r => stodCore r
  | r => stodCore r

/-- One loop-body step of `calculateAverageTemperature`
(src/main.cpp:124-147): parse the first 19 characters as a timestamp, check
the lookback window, take the text after the last colon, trim spaces, and
on a successful `stod` add the value to the running sum and bump the count;
every failure leaves the accumulator untouched. -/
def avgStep (now maxAge : Int) (acc : ℚ × Nat) (entry : List Char) : ℚ × Nat :=
  match parseTime (entry.take 19) with
  | some tm =>
    if now - mkTime tm < maxAge then
      match afterLastColon entry with
      | some t =>
        match stod (trimSpaces t) with
        | some v => (acc.1 + v, acc.2 + 1)
        | none => acc
      | none => acc
    else acc
  | none => acc

/-- Embedding of `calculateAverageTemperature` (src/main.cpp:118-150):
fold `avgStep` over the log and return `sum / count`, or `0.0` when the
count is zero. -/
def calculateAverageTemperature (log : List (List Char)) (now maxAge : Int) : ℚ :=
  let sc := log.foldl (avgStep now maxAge) (0, 0)
  if 0 < sc.2 then sc.1 / (sc.2 : ℚ) else 0

/-- Embedding of `containsNullBytes` (src/main.cpp:153-155). -/
def containsNullBytes (str : List Char) : Bool := str.contains '\x00'

/-- The per-character test of the validation loop in `main`
(src/main.cpp:183-187): a character passes iff it is a digit, `'.'`
or `'-'`. -/
def isValidTokenChar (c : Char) : Bool := c.isDigit || c == '.' || c == '-'

/-- The acceptance condition of the ingestion tick (src/main.cpp:180-189):
non-empty, no null byte, and every character passes `isValidTokenChar`. -/
def tokenAccepted (t : List Char) : Bool :=
  (!t.isEmpty && !containsNullBytes t) && t.all isValidTokenChar

/-- `MAX_TIME_DEFAULT` (src/main.cpp:26). -/
def MAX_TIME_DEFAULT : Int := 24 * 60 * 60

/-- `MAX_TIME_HOUR` (src/main.cpp:27). -/
def MAX_TIME_HOUR : Int := 30 * 24 * 60 * 60

/-- `MAX_TIME_DAY` (src/main.cpp:28). -/
def MAX_TIME_DAY : Int := 365 * 24 * 60 * 60

/-- Embedding of the token-handling part of one polling tick of `main`
(src/main.cpp:178-196): when the token is non-empty and null-free, append a
record iff every character is valid, and run `cleanOldEntries` on the raw
buffer either way; an empty or null-byte token leaves the buffer alone.
`tm`/`ms` are the wall clock read by `writeToLog`, `now` the one read by
`cleanOldEntries`. -/
def ingestTick (token : List Char) (tm : Tm) (ms : Nat) (now : Int)
    (buf : List (List Char)) : List (List Char) :=
  if !token.isEmpty && !containsNullBytes token then
    let buf1 := if token.all isValidTokenChar then buf ++ [writeToLogEntry tm ms token] else buf
    cleanOldEntries buf1 now MAX_TIME_DEFAULT
  else buf

/-- Embedding of `syncLogToDisk` (src/main.cpp:88-99) on a successfully
opened file: the file is a list of lines, opened in append mode, and the
loop writes every in-memory record onto its end, one line at a time.  (The
failed-open branch leaves the file unchanged and only prints a diagnostic;
no claim concerns it.) -/
def syncLogToDisk (log_memory : List (List Char)) (disk : List (List Char)) :
    List (List Char) :=
  log_memory.foldl (fun d entry => d ++ [entry]) disk

/-- The instant stored in a record: `mktime` of the parse of its first 19
characters, when that parse succeeds. -/
def entrySec (e : List Char) : Option Int := (parseTime (e.take 19)).map mkTime

/-- Total version of `entrySec` for buffers all of whose records parse. -/
def timeOf (e : List Char) : Int := (entrySec e).getD 0

/-- Every record of the buffer has a parseable 19-character prefix. -/
def ParsesAll (buf : List (List Char)) : Prop :=
  ∀ e ∈ buf, (entrySec e).isSome = true

/-- The buffer is ordered by timestamp, head oldest. -/
def TimeMono (buf : List (List Char)) : Prop :=
  List.Sorted (· ≤ ·) (buf.map timeOf)

/-- The expiry test of `cleanOldEntries` on a parsed record: the record has
reached the maximum age. -/
def expiredB (now maxAge : Int) (e : List Char) : Bool :=
  decide (maxAge ≤ now - timeOf e)

/-- Buffer histories of the polling loop with a fixed `max_age`: starting
from a buffer, any interleaving of appends of timestamp-parseable records
arriving in real time (each new record at least as young as everything
already buffered) and expiry passes. -/
inductive Reach (maxAge : Int) : List (List Char) → List (List Char) → Prop where
  | refl (buf : List (List Char)) : Reach maxAge buf buf
  | app {buf buf' : List (List Char)} (e : List Char) (h : Reach maxAge buf buf')
      (hp : (entrySec e).isSome = true) (hle : ∀ x ∈ buf', timeOf x ≤ timeOf e) :
      Reach maxAge buf (buf' ++ [e])
  | exp {buf buf' : List (List Char)} (now : Int) (h : Reach maxAge buf buf') :
      Reach maxAge buf (cleanOldEntries buf' now maxAge)

/-- The window test a record must pass to feed an average: its timestamp
parses and lies within the lookback. -/
def qualifiesB (now lookback : Int) (e : List Char) : Bool :=
  match parseTime (e.take 19) with
  | some tm => decide (now - mkTime tm < lookback)
  | none => false

/-- The numeric value the aggregator extracts from a record: the text after
the last colon, trimmed, through `stod`. -/
def entryValue (e : List Char) : Option ℚ :=
  match afterLastColon e with
  | some t => stod (trimSpaces t)
  | none => none

/-- Spec-side window filter, following §4.3 of the spec:
`now - timestamp < lookback_seconds`. -/
def specQualifies (now lookback : Int) (e : List Char) : Bool :=
  decide (now - timeOf e < lookback)

/-- Spec-side list of values feeding one average, following §4.3 of the
spec: the records within the lookback window, each contributing the numeric
parse of its trailing field, parse failures silently excluded. -/
def specValues (log : List (List Char)) (now lookback : Int) : List ℚ :=
  (log.filter (specQualifies now lookback)).filterMap entryValue

/-- Spec-side `computeAverage`, following §4.3 of the spec: the arithmetic
mean of `specValues`, and `0.0` when no value qualifies. -/
def specMean (log : List (List Char)) (now lookback : Int) : ℚ :=
  let vs := specValues log now lookback
  if vs = [] then 0 else vs.sum / (vs.length : ℚ)

/-! ## General lemmas about the embedded operations -/

theorem cleanOldEntries_isSuffix (buf : List (List Char)) (now maxAge : Int) :
    cleanOldEntries buf now maxAge <:+ buf := by
  induction buf with
  | nil => simp [cleanOldEntries]
  | cons e rest ih =>
    rw [cleanOldEntries]
    cases h : parseTime (e.take 19) with
    | none => exact ih.trans (List.suffix_cons e rest)
    | some tm =>
      by_cases hfresh : now - mkTime tm < maxAge
      · simp [hfresh]
      · simp only [if_neg hfresh]
        exact ih.trans (List.suffix_cons e rest)

theorem syncLogToDisk_eq_append (log disk : List (List Char)) :
    syncLogToDisk log disk = disk ++ log := by
  induction log generalizing disk with
  | nil => simp [syncLogToDisk]
  | cons e rest ih =>
    have h := ih (disk ++ [e])
    rw [syncLogToDisk] at h ⊢
    simp only [List.foldl_cons]
    rw [h]
    simp

/-! ## C1 -/

/-- C1 counterexample: the record `"xx: 1"` has an unparsable 19-character
timestamp prefix, yet a single `expire` pass at `now = 0` with a 24-hour
maximum age removes it from the buffer, contradicting the claim that such a
record is never removed. -/
theorem c1_counterexample :
    parseTime (("xx: 1").data.take 19) = none ∧
      cleanOldEntries [("xx: 1").data] 0 86400 = [] := by
  decide

/-- C1 amended: `expire` is fail-closed, not fail-open: whenever the record
at the head of the buffer has a 19-character timestamp prefix that fails to
parse, the expiry pass removes it (and continues on the rest), regardless
of the record's age and of `now` and `max_age`. -/
theorem c1_amended_fail_closed (e : List Char) (rest : List (List Char))
    (now maxAge : Int) (h : parseTime (e.take 19) = none) :
    cleanOldEntries (e :: rest) now maxAge = cleanOldEntries rest now maxAge := by
  rw [cleanOldEntries, h]

/-- C1 amended, witness: the unparsable record `"xx: 1"` at the head is
dropped by the expiry pass. -/
theorem c1_amended_fail_closed_witness :
    cleanOldEntries [("xx: 1").data] 0 86400 = cleanOldEntries [] 0 86400 :=
  c1_amended_fail_closed (("xx: 1").data) [] 0 86400 (by decide)

/-! ## C2 -/

/-- C2 counterexample: the tick receives the invalid token `"a"` (non-empty,
no null byte, contains a character outside `0-9`/`.`/`-`) while the raw
buffer holds one record that is exactly 24 hours old; the claim says the
buffer is left completely unchanged, but the tick's unconditional
`cleanOldEntries` call removes the expired record. -/
theorem c2_counterexample :
    ingestTick (("a").data) ⟨124, 9, 13, 10, 0, 0⟩ 0
        (mkTime ⟨124, 9, 12, 10, 0, 0⟩ + 86400)
        [("2024-10-12 10:00:00.0: 5.0").data]
      ≠ [("2024-10-12 10:00:00.0: 5.0").data] := by
  decide

/-- C2 amended: on an empty or null-byte token the raw buffer is left
completely unchanged; on a non-empty, null-free token with a character
outside `0-9`/`.`/`-` no record is appended, but the tick still runs the
expiry pass on the raw buffer (which may remove expired head records). -/
theorem c2_amended_invalid_token (t : List Char) (tm : Tm) (ms : Nat) (now : Int)
    (buf : List (List Char)) :
    (t = [] ∨ containsNullBytes t = true → ingestTick t tm ms now buf = buf) ∧
      (t ≠ [] → containsNullBytes t = false → t.all isValidTokenChar = false →
        ingestTick t tm ms now buf = cleanOldEntries buf now MAX_TIME_DEFAULT) := by
  constructor
  · intro h
    rcases h with h | h
    · simp [ingestTick, h]
    · simp [ingestTick, h]
  · intro h1 h2 h3
    rw [ingestTick]
    simp only [h2, h3]
    simp [List.isEmpty_iff, h1]

/-- C2 amended, witness: the invalid token `"a"` on a buffer holding one
expired record yields exactly the expiry pass on that buffer. -/
theorem c2_amended_invalid_token_witness :
    ingestTick (("a").data) ⟨124, 9, 13, 10, 0, 0⟩ 0
        (mkTime ⟨124, 9, 12, 10, 0, 0⟩ + 86400)
        [("2024-10-12 10:00:00.0: 5.0").data]
      = cleanOldEntries [("2024-10-12 10:00:00.0: 5.0").data]
          (mkTime ⟨124, 9, 12, 10, 0, 0⟩ + 86400) MAX_TIME_DEFAULT :=
  (c2_amended_invalid_token (("a").data) ⟨124, 9, 13, 10, 0, 0⟩ 0
      (mkTime ⟨124, 9, 12, 10, 0, 0⟩ + 86400)
      [("2024-10-12 10:00:00.0: 5.0").data]).2
    (by decide) (by decide) (by decide)

/-! ## C9 -/

/-- C9: a flush appends the textual form of every record presently in the
buffer to the file, in buffer order, and flushing is not idempotent: a
second flush of an unchanged buffer appends every line again, so each line
of a non-empty buffer occurs twice more on disk and the file differs from
what a single flush produced. -/
theorem c9_flush_appends_not_idempotent :
    (∀ log disk : List (List Char), syncLogToDisk log disk = disk ++ log) ∧
      (∀ (log disk : List (List Char)) (line : List Char),
        (syncLogToDisk log (syncLogToDisk log disk)).count line
          = disk.count line + 2 * log.count line) ∧
      (∀ log disk : List (List Char), log ≠ [] →
        syncLogToDisk log (syncLogToDisk log disk) ≠ syncLogToDisk log disk) := by
  refine ⟨syncLogToDisk_eq_append, ?_, ?_⟩
  · intro log disk line
    rw [syncLogToDisk_eq_append, syncLogToDisk_eq_append, List.count_append,
      List.count_append]
    omega
  · intro log disk hne
    rw [syncLogToDisk_eq_append, syncLogToDisk_eq_append]
    intro h
    have hlen := congrArg List.length h
    simp only [List.length_append] at hlen
    have : log.length = 0 := by omega
    exact hne (List.length_eq_zero.mp this)

/-- C9 witness: flushing the one-line buffer `["7"]` twice onto an empty
file duplicates the line. -/
theorem c9_flush_appends_not_idempotent_witness :
    syncLogToDisk [("7").data] (syncLogToDisk [("7").data] [])
      ≠ syncLogToDisk [("7").data] [] :=
  c9_flush_appends_not_idempotent.2.2 [("7").data] [] (by decide)

/-! ## C3 -/

theorem avgStep_id_of_not_qualifies {now lookback : Int} {e : List Char}
    (h : qualifiesB now lookback e = false) (acc : ℚ × Nat) :
    avgStep now lookback acc e = acc := by
  rw [avgStep]
  rw [qualifiesB] at h
  cases hp : parseTime (e.take 19) with
  | none => rfl
  | some tm =>
    rw [hp] at h
    simp only [decide_eq_false_iff_not] at h
    simp [h]

theorem isValidTokenChar_iff (c : Char) :
    isValidTokenChar c = true ↔ (('0' ≤ c ∧ c ≤ '9') ∨ c = '.' ∨ c = '-') := by
  simp [isValidTokenChar, Char.isDigit, Char.le_def, or_assoc]

/-- C3: the ingestion validator accepts a token iff it is non-empty,
contains no null byte, and every character is a decimal digit, `'.'` or
`'-'`; it accepts the numerically malformed `"--1"`, `"1.2.3"` and `"-"`;
and on acceptance the tick appends to the raw buffer a record whose payload
is exactly the token (before the tick's expiry pass runs). -/
theorem c3_validator_characterization :
    (∀ t : List Char, tokenAccepted t = true ↔
        (t ≠ [] ∧ (∀ c ∈ t, c ≠ '\x00') ∧
          ∀ c ∈ t, ('0' ≤ c ∧ c ≤ '9') ∨ c = '.' ∨ c = '-')) ∧
      tokenAccepted (("--1").data) = true ∧
      tokenAccepted (("1.2.3").data) = true ∧
      tokenAccepted (("-").data) = true ∧
      ∀ (t : List Char) (tm : Tm) (ms : Nat) (now : Int) (buf : List (List Char)),
        tokenAccepted t = true →
        ingestTick t tm ms now buf
          = cleanOldEntries (buf ++ [writeToLogEntry tm ms t]) now MAX_TIME_DEFAULT := by
  refine ⟨?_, by decide, by decide, by decide, ?_⟩
  · intro t
    rw [tokenAccepted]
    simp only [Bool.and_eq_true, Bool.not_eq_true', List.all_eq_true,
      List.isEmpty_eq_false_iff_exists_mem, containsNullBytes, isValidTokenChar_iff]
    constructor
    · rintro ⟨⟨⟨c0, hc0⟩, hnull⟩, hall⟩
      refine ⟨by rintro rfl; exact absurd hc0 (List.not_mem_nil c0), ?_, hall⟩
      intro c hc hceq
      subst hceq
      have hmem : t.contains '\x00' = true := List.elem_eq_true_of_mem hc
      rw [hmem] at hnull
      exact Bool.noConfusion hnull
    · rintro ⟨hne, hnull, hclass⟩
      refine ⟨⟨?_, ?_⟩, hclass⟩
      · cases t with
        | nil => exact absurd rfl hne
        | cons c rest => exact ⟨c, List.mem_cons_self c rest⟩
      · cases he : t.contains '\x00' with
        | false => rfl
        | true =>
          have hmem : '\x00' ∈ t := List.mem_of_elem_eq_true he
          exact absurd rfl (hnull '\x00' hmem)
  · intro t tm ms now buf ht
    rw [tokenAccepted] at ht
    simp only [Bool.and_eq_true] at ht
    rw [ingestTick]
    simp [ht.1.1, ht.1.2, ht.2]

/-- C3 witness: the accepted token `"--1"` is appended with payload
`"--1"` before the expiry pass. -/
theorem c3_validator_characterization_witness :
    ingestTick (("--1").data) ⟨124, 9, 12, 10, 0, 0⟩ 0 0 []
      = cleanOldEntries [writeToLogEntry ⟨124, 9, 12, 10, 0, 0⟩ 0 (("--1").data)] 0
          MAX_TIME_DEFAULT :=
  c3_validator_characterization.2.2.2.2 (("--1").data) ⟨124, 9, 12, 10, 0, 0⟩ 0 0 []
    (by decide)

/-! ## C6 -/

theorem avgFold_id_of_none_qualifies {now lookback : Int} :
    ∀ log : List (List Char), (∀ e ∈ log, qualifiesB now lookback e = false) →
      ∀ acc : ℚ × Nat, log.foldl (avgStep now lookback) acc = acc := by
  intro log
  induction log with
  | nil => intro _ acc; rfl
  | cons e rest ih =>
    intro h acc
    rw [List.foldl_cons, avgStep_id_of_not_qualifies (h e (List.mem_cons_self e rest))]
    exact ih (fun x hx => h x (List.mem_cons_of_mem e hx)) acc

/-- C6: whenever no record of the snapshot qualifies for the lookback
window (in particular on an empty buffer), `calculateAverageTemperature`
returns exactly `0.0`. -/
theorem c6_empty_average_zero (log : List (List Char)) (now lookback : Int)
    (h : ∀ e ∈ log, qualifiesB now lookback e = false) :
    calculateAverageTemperature log now lookback = 0 := by
  rw [calculateAverageTemperature]
  rw [avgFold_id_of_none_qualifies log h]
  rfl

/-- C6 witness: the empty buffer averages to `0.0`. -/
theorem c6_empty_average_zero_witness :
    calculateAverageTemperature [] 0 3600 = 0 :=
  c6_empty_average_zero [] 0 3600 (by simp)

/-! ## C10 -/

/-- C10: a record whose first 19 characters fail to parse as a timestamp is
silently excluded from the average: wherever it sits in the snapshot, the
running sum-and-count fold and the resulting average are identical to those
of the snapshot without it. -/
theorem c10_unparsable_timestamp_excluded (pre post : List (List Char))
    (e : List Char) (now lookback : Int) (h : parseTime (e.take 19) = none) :
    (pre ++ e :: post).foldl (avgStep now lookback) (0, 0)
        = (pre ++ post).foldl (avgStep now lookback) (0, 0) ∧
      calculateAverageTemperature (pre ++ e :: post) now lookback
        = calculateAverageTemperature (pre ++ post) now lookback := by
  have hstep : ∀ acc : ℚ × Nat, avgStep now lookback acc e = acc := by
    intro acc
    rw [avgStep, h]
  have hfold : ∀ acc : ℚ × Nat,
      (pre ++ e :: post).foldl (avgStep now lookback) acc
        = (pre ++ post).foldl (avgStep now lookback) acc := by
    intro acc
    rw [List.foldl_append, List.foldl_append, List.foldl_cons, hstep]
  refine ⟨hfold (0, 0), ?_⟩
  rw [calculateAverageTemperature, calculateAverageTemperature, hfold (0, 0)]

/-- C10 witness: the record `"not a timestamp: 99"` contributes to neither
the sum nor the count of the average over its neighbors. -/
theorem c10_unparsable_timestamp_excluded_witness :
    calculateAverageTemperature
        [("2024-10-12 10:00:00.0: 20.0").data, ("not a timestamp: 99").data]
        (mkTime ⟨124, 9, 12, 10, 0, 30⟩) 3600
      = calculateAverageTemperature [("2024-10-12 10:00:00.0: 20.0").data]
          (mkTime ⟨124, 9, 12, 10, 0, 30⟩) 3600 :=
  (c10_unparsable_timestamp_excluded [("2024-10-12 10:00:00.0: 20.0").data] []
      (("not a timestamp: 99").data) (mkTime ⟨124, 9, 12, 10, 0, 30⟩) 3600
      (by decide)).2

/-! ## Decimal rendering and stream-extraction lemmas -/

theorem isDigitChar_digitChar : ∀ n, n < 10 → isDigitChar (digitChar n) = true := by
  decide

theorem digitChar_toNat : ∀ n, n < 10 → (digitChar n).toNat = 48 + n := by
  decide

theorem digit_not_space {c : Char} (h : isDigitChar c = true) : isSpaceChar c = false := by
  cases hs : isSpaceChar c with
  | false => rfl
  | true =>
    exfalso
    rw [isSpaceChar] at hs
    simp only [Bool.or_eq_true, decide_eq_true_eq] at hs
    rcases hs with ((((rfl | rfl) | rfl) | rfl) | rfl) | rfl <;> exact absurd h (by decide)

theorem digit_ne_minus {c : Char} (h : isDigitChar c = true) : ¬(c = '-') := by
  intro hc
  subst hc
  exact absurd h (by decide)

theorem digit_ne_plus {c : Char} (h : isDigitChar c = true) : ¬(c = '+') := by
  intro hc
  subst hc
  exact absurd h (by decide)

theorem natDigitsAux_congr : ∀ f g n, n < f → n < g → natDigitsAux f n = natDigitsAux g n := by
  intro f
  induction f with
  | zero => intro g n h; omega
  | succ f ih =>
    intro g n hf hg
    cases g with
    | zero => omega
    | succ g =>
      rw [natDigitsAux, natDigitsAux]
      by_cases h10 : n < 10
      · simp [h10]
      · simp only [if_neg h10]
        have hn : 0 < n := by omega
        have hdiv : n / 10 < n := Nat.div_lt_self hn (by omega)
        rw [ih g (n / 10) (by omega) (by omega)]

theorem natDigits_eq_of_lt {n : Nat} (h : n < 10) : natDigits n = [digitChar n] := by
  rw [natDigits, natDigitsAux, if_pos h]

theorem natDigits_eq_of_ge {n : Nat} (h : 10 ≤ n) :
    natDigits n = natDigits (n / 10) ++ [digitChar (n % 10)] := by
  rw [natDigits, natDigits, natDigitsAux, if_neg (by omega)]
  have hdiv : n / 10 < n := Nat.div_lt_self (by omega) (by omega)
  rw [natDigitsAux_congr n (n / 10 + 1) (n / 10) (by omega) (by omega)]

theorem natDigits_ne_nil {n : Nat} : natDigits n ≠ [] := by
  by_cases h : n < 10
  · rw [natDigits_eq_of_lt h]
    exact List.cons_ne_nil _ _
  · rw [natDigits_eq_of_ge (by omega)]
    exact List.append_ne_nil_of_right_ne_nil _ (List.cons_ne_nil _ _)

theorem natDigits_all_digit : ∀ n, ∀ c ∈ natDigits n, isDigitChar c = true := by
  intro n
  induction n using Nat.strong_induction_on with
  | _ n ih =>
    by_cases h : n < 10
    · rw [natDigits_eq_of_lt h]
      intro c hc
      rw [List.mem_singleton] at hc
      subst hc
      exact isDigitChar_digitChar n h
    · rw [natDigits_eq_of_ge (by omega)]
      intro c hc
      rw [List.mem_append] at hc
      rcases hc with hc | hc
      · exact ih (n / 10) (Nat.div_lt_self (by omega) (by omega)) c hc
      · rw [List.mem_singleton] at hc
        subst hc
        exact isDigitChar_digitChar (n % 10) (Nat.mod_lt n (by omega))

theorem digitsVal_append_single (l : List Char) (c : Char) :
    digitsVal (l ++ [c]) = 10 * digitsVal l + (c.toNat - 48) := by
  rw [digitsVal, digitsVal, List.foldl_append, List.foldl_cons, List.foldl_nil]

theorem digitsVal_natDigits : ∀ n, digitsVal (natDigits n) = n := by
  intro n
  induction n using Nat.strong_induction_on with
  | _ n ih =>
    by_cases h : n < 10
    · rw [natDigits_eq_of_lt h, digitsVal, List.foldl_cons, List.foldl_nil,
        digitChar_toNat n h]
      omega
    · rw [natDigits_eq_of_ge (by omega), digitsVal_append_single,
        ih (n / 10) (Nat.div_lt_self (by omega) (by omega)),
        digitChar_toNat (n % 10) (Nat.mod_lt n (by omega))]
      omega

theorem natDigits_length : ∀ k n, 10 ^ k ≤ n → n < 10 ^ (k + 1) →
    (natDigits n).length = k + 1 := by
  intro k
  induction k with
  | zero =>
    intro n h1 h2
    rw [natDigits_eq_of_lt (by simpa using h2)]
    rfl
  | succ k ih =>
    intro n h1 h2
    have h10 : (10 : Nat) ≤ 10 ^ (k + 1) := by
      calc (10 : Nat) = 10 ^ 1 := (pow_one 10).symm
      _ ≤ 10 ^ (k + 1) := Nat.pow_le_pow_right (by omega) (by omega)
    rw [natDigits_eq_of_ge (le_trans h10 h1), List.length_append]
    have hlo : 10 ^ k ≤ n / 10 := by
      rw [Nat.le_div_iff_mul_le (by omega)]
      calc 10 ^ k * 10 = 10 ^ (k + 1) := (pow_succ 10 k).symm
      _ ≤ n := h1
    have hhi : n / 10 < 10 ^ (k + 1) := by
      rw [Nat.div_lt_iff_lt_mul (by omega)]
      calc n < 10 ^ (k + 1 + 1) := h2
      _ = 10 ^ (k + 1) * 10 := pow_succ 10 (k + 1)
    rw [ih (n / 10) hlo hhi]
    rfl

theorem takeWhile_digits_append : ∀ (ds rest : List Char),
    (∀ c ∈ ds, isDigitChar c = true) → headNotDigit rest = true →
    (ds ++ rest).takeWhile isDigitChar = ds ∧ (ds ++ rest).dropWhile isDigitChar = rest := by
  intro ds
  induction ds with
  | nil =>
    intro rest _ hrest
    simp only [List.nil_append]
    cases rest with
    | nil => exact ⟨rfl, rfl⟩
    | cons r rs =>
      rw [headNotDigit, Bool.not_eq_true'] at hrest
      rw [List.takeWhile_cons, List.dropWhile_cons, hrest]
      exact ⟨rfl, rfl⟩
  | cons d ds ih =>
    intro rest hds hrest
    have hd : isDigitChar d = true := hds d (List.mem_cons_self d ds)
    have hds2 : ∀ c ∈ ds, isDigitChar c = true :=
      fun c hc => hds c (List.mem_cons_of_mem d hc)
    obtain ⟨ht, hdp⟩ := ih rest hds2 hrest
    rw [List.cons_append, List.takeWhile_cons, List.dropWhile_cons, hd]
    constructor
    · simp [ht]
    · simp [hdp]

theorem skipWs_cons_of_not_space {c : Char} (l : List Char) (h : isSpaceChar c = false) :
    skipWs (c :: l) = c :: l := by
  rw [skipWs, List.dropWhile_cons, h]
  simp

theorem readInt_ws {c : Char} (l : List Char) (h : isSpaceChar c = true) :
    readInt (c :: l) = readInt l := by
  rw [readInt, readInt, skipWs, List.dropWhile_cons, h]
  rfl

theorem readChar_cons {c : Char} (l : List Char) (h : isSpaceChar c = false) :
    readChar (c :: l) = some (c, l) := by
  rw [readChar, skipWs_cons_of_not_space l h]

theorem readInt_digits {n : Nat} {rest : List Char} (hn : (n : Int) ≤ intMax)
    (hrest : headNotDigit rest = true) :
    readInt (natDigits n ++ rest) = some ((n : Int), rest) := by
  obtain ⟨d, t, hd⟩ : ∃ d t, natDigits n = d :: t := by
    cases h : natDigits n with
    | nil => exact absurd h natDigits_ne_nil
    | cons d t => exact ⟨d, t, rfl⟩
  have hddig : isDigitChar d = true := by
    apply natDigits_all_digit n
    rw [hd]
    exact List.mem_cons_self _ _
  have hskip : skipWs (natDigits n ++ rest) = d :: (t ++ rest) := by
    rw [hd, List.cons_append]
    exact skipWs_cons_of_not_space _ (digit_not_space hddig)
  rw [readInt, hskip]
  simp only [if_neg (digit_ne_minus hddig), if_neg (digit_ne_plus hddig)]
  rw [readIntAux]
  rw [← List.cons_append, ← hd]
  obtain ⟨htake, hdrop⟩ := takeWhile_digits_append (natDigits n) rest
    (natDigits_all_digit n) hrest
  have hne : (natDigits n).isEmpty = false := by
    cases h : natDigits n with
    | nil => exact absurd h natDigits_ne_nil
    | cons a b => rfl
  rw [htake, hdrop, hne]
  simp only [Bool.false_eq_true, if_false]
  rw [digitsVal_natDigits]
  have hrange : ¬((n : Int) < intMin ∨ intMax < (n : Int)) := by
    rw [intMin, intMax]
    rw [intMax] at hn
    omega
  rw [if_neg hrange]

theorem headNotDigit_cons (c : Char) (l : List Char) :
    headNotDigit (c :: l) = !isDigitChar c := rfl

theorem parseTime_fields {y mo d h mi s : Nat} {c1 c2 c3 c4 : Char} {suffix : List Char}
    (hy : (y : Int) ≤ intMax) (hmo : (mo : Int) ≤ intMax) (hd : (d : Int) ≤ intMax)
    (hh : (h : Int) ≤ intMax) (hmi : (mi : Int) ≤ intMax) (hs : (s : Int) ≤ intMax)
    (h1d : isDigitChar c1 = false) (h1s : isSpaceChar c1 = false)
    (h2d : isDigitChar c2 = false) (h2s : isSpaceChar c2 = false)
    (h3d : isDigitChar c3 = false) (h3s : isSpaceChar c3 = false)
    (h4d : isDigitChar c4 = false) (h4s : isSpaceChar c4 = false)
    (hsuf : headNotDigit suffix = true)
    (hlen : 19 ≤ (natDigits y ++ (c1 :: (natDigits mo ++ (c2 :: (natDigits d
      ++ (' ' :: (natDigits h ++ (c3 :: (natDigits mi
      ++ (c4 :: (natDigits s ++ suffix))))))))))).length) :
    parseTime (natDigits y ++ (c1 :: (natDigits mo ++ (c2 :: (natDigits d
        ++ (' ' :: (natDigits h ++ (c3 :: (natDigits mi
        ++ (c4 :: (natDigits s ++ suffix)))))))))))
      = some ⟨(y : Int) - 1900, (mo : Int) - 1, (d : Int), (h : Int), (mi : Int), (s : Int)⟩ := by
  have hnd1 : headNotDigit (c1 :: (natDigits mo ++ (c2 :: (natDigits d
      ++ (' ' :: (natDigits h ++ (c3 :: (natDigits mi
      ++ (c4 :: (natDigits s ++ suffix)))))))))) = true := by
    rw [headNotDigit_cons, h1d]
    rfl
  have hnd2 : headNotDigit (c2 :: (natDigits d ++ (' ' :: (natDigits h
      ++ (c3 :: (natDigits mi ++ (c4 :: (natDigits s ++ suffix)))))))) = true := by
    rw [headNotDigit_cons, h2d]
    rfl
  have hnd3 : headNotDigit (' ' :: (natDigits h ++ (c3 :: (natDigits mi
      ++ (c4 :: (natDigits s ++ suffix)))))) = true := by
    rw [headNotDigit_cons]
    decide
  have hnd4 : headNotDigit (c3 :: (natDigits mi ++ (c4 :: (natDigits s ++ suffix)))) = true := by
    rw [headNotDigit_cons, h3d]
    rfl
  have hnd5 : headNotDigit (c4 :: (natDigits s ++ suffix)) = true := by
    rw [headNotDigit_cons, h4d]
    rfl
  have e1 : readInt (natDigits y ++ (c1 :: (natDigits mo ++ (c2 :: (natDigits d
      ++ (' ' :: (natDigits h ++ (c3 :: (natDigits mi
      ++ (c4 :: (natDigits s ++ suffix)))))))))))
      = some ((y : Int), c1 :: (natDigits mo ++ (c2 :: (natDigits d
        ++ (' ' :: (natDigits h ++ (c3 :: (natDigits mi
        ++ (c4 :: (natDigits s ++ suffix)))))))))) :=
    readInt_digits hy hnd1
  have e2 : readChar (c1 :: (natDigits mo ++ (c2 :: (natDigits d
      ++ (' ' :: (natDigits h ++ (c3 :: (natDigits mi
      ++ (c4 :: (natDigits s ++ suffix))))))))))
      = some (c1, natDigits mo ++ (c2 :: (natDigits d
        ++ (' ' :: (natDigits h ++ (c3 :: (natDigits mi
        ++ (c4 :: (natDigits s ++ suffix))))))))) :=
    readChar_cons _ h1s
  have e3 : readInt (natDigits mo ++ (c2 :: (natDigits d
      ++ (' ' :: (natDigits h ++ (c3 :: (natDigits mi
      ++ (c4 :: (natDigits s ++ suffix)))))))))
      = some ((mo : Int), c2 :: (natDigits d
        ++ (' ' :: (natDigits h ++ (c3 :: (natDigits mi
        ++ (c4 :: (natDigits s ++ suffix)))))))) :=
    readInt_digits hmo hnd2
  have e4 : readChar (c2 :: (natDigits d
      ++ (' ' :: (natDigits h ++ (c3 :: (natDigits mi
      ++ (c4 :: (natDigits s ++ suffix))))))))
      = some (c2, natDigits d ++ (' ' :: (natDigits h ++ (c3 :: (natDigits mi
        ++ (c4 :: (natDigits s ++ suffix))))))) :=
    readChar_cons _ h2s
  have e5 : readInt (natDigits d ++ (' ' :: (natDigits h ++ (c3 :: (natDigits mi
      ++ (c4 :: (natDigits s ++ suffix)))))))
      = some ((d : Int), ' ' :: (natDigits h ++ (c3 :: (natDigits mi
        ++ (c4 :: (natDigits s ++ suffix)))))) :=
    readInt_digits hd hnd3
  have e6 : readInt (' ' :: (natDigits h ++ (c3 :: (natDigits mi
      ++ (c4 :: (natDigits s ++ suffix))))))
      = some ((h : Int), c3 :: (natDigits mi ++ (c4 :: (natDigits s ++ suffix)))) := by
    rw [@readInt_ws ' ' (natDigits h ++ (c3 :: (natDigits mi
      ++ (c4 :: (natDigits s ++ suffix))))) (by decide)]
    exact readInt_digits hh hnd4
  have e7 : readChar (c3 :: (natDigits mi ++ (c4 :: (natDigits s ++ suffix))))
      = some (c3, natDigits mi ++ (c4 :: (natDigits s ++ suffix))) :=
    readChar_cons _ h3s
  have e8 : readInt (natDigits mi ++ (c4 :: (natDigits s ++ suffix)))
      = some ((mi : Int), c4 :: (natDigits s ++ suffix)) :=
    readInt_digits hmi hnd5
  have e9 : readChar (c4 :: (natDigits s ++ suffix))
      = some (c4, natDigits s ++ suffix) :=
    readChar_cons _ h4s
  have e10 : readInt (natDigits s ++ suffix) = some ((s : Int), suffix) :=
    readInt_digits hs hsuf
  rw [parseTime, if_neg (by omega)]
  rw [e1]
  simp only [e2, e3, e4, e5, e6, e7, e8, e9, e10]

theorem intToDecString_of_nonneg {i : Int} (h : 0 ≤ i) :
    intToDecString i = natDigits i.toNat := by
  rw [intToDecString, if_neg (by omega)]

theorem natDigits_length_pos (n : Nat) : 0 < (natDigits n).length :=
  List.length_pos.mpr natDigits_ne_nil

/-! ## C8 -/

/-- C8 counterexample: `"2024x03x07x09x05x02"` is 19 characters long and
consists of six integer fields each separated by the single non-digit
character `'x'`, yet `parseTime` fails on it: the reader extracts no
delimiter between the day and hour fields, so the third separator must be
whitespace (or a sign) for the hour's integer scan to proceed. -/
theorem c8_counterexample :
    parseTime (("2024x03x07x09x05x02").data) = none ∧
      (("2024x03x07x09x05x02").data).length = 19 := by
  decide

/-- C8 amended: `parse` reads year, a one-character delimiter, month, a
delimiter, day, then the hour directly (only the integer scan's own
whitespace skipping separates day from hour), a delimiter, minute, a
delimiter, second.  It succeeds on every input of at least 19 characters
shaped as six `int`-range integer fields in which separators 1, 2, 4 and 5
are single non-digit, non-whitespace characters and the day-hour separator
is whitespace, returning the six fields (year shifted by 1900, month by
one); an arbitrary non-digit character in the day-hour position makes it
fail (see the counterexample). -/
theorem c8_amended_parse_shape {y mo d h mi s : Nat} {c1 c2 c3 c4 : Char}
    {suffix : List Char}
    (hy : (y : Int) ≤ intMax) (hmo : (mo : Int) ≤ intMax) (hd : (d : Int) ≤ intMax)
    (hh : (h : Int) ≤ intMax) (hmi : (mi : Int) ≤ intMax) (hs : (s : Int) ≤ intMax)
    (h1d : isDigitChar c1 = false) (h1s : isSpaceChar c1 = false)
    (h2d : isDigitChar c2 = false) (h2s : isSpaceChar c2 = false)
    (h3d : isDigitChar c3 = false) (h3s : isSpaceChar c3 = false)
    (h4d : isDigitChar c4 = false) (h4s : isSpaceChar c4 = false)
    (hsuf : headNotDigit suffix = true)
    (hlen : 19 ≤ (natDigits y ++ (c1 :: (natDigits mo ++ (c2 :: (natDigits d
      ++ (' ' :: (natDigits h ++ (c3 :: (natDigits mi
      ++ (c4 :: (natDigits s ++ suffix))))))))))).length) :
    parseTime (natDigits y ++ (c1 :: (natDigits mo ++ (c2 :: (natDigits d
        ++ (' ' :: (natDigits h ++ (c3 :: (natDigits mi
        ++ (c4 :: (natDigits s ++ suffix)))))))))))
      = some ⟨(y : Int) - 1900, (mo : Int) - 1, (d : Int), (h : Int), (mi : Int), (s : Int)⟩ :=
  parseTime_fields hy hmo hd hh hmi hs h1d h1s h2d h2s h3d h3s h4d h4s hsuf hlen

/-- C8 amended, witness: `"2024x10x12 10x15x22.4"` parses to the expected
six fields. -/
theorem c8_amended_parse_shape_witness :
    parseTime (natDigits 2024 ++ ('x' :: (natDigits 10 ++ ('x' :: (natDigits 12
        ++ (' ' :: (natDigits 10 ++ ('x' :: (natDigits 15
        ++ ('x' :: (natDigits 22 ++ (".4").data)))))))))))
      = some ⟨(2024 : Int) - 1900, (10 : Int) - 1, 12, 10, 15, 22⟩ :=
  c8_amended_parse_shape (by decide) (by decide) (by decide) (by decide) (by decide)
    (by decide) (by decide) (by decide) (by decide) (by decide) (by decide) (by decide)
    (by decide) (by decide) (by decide) (by decide)

/-! ## C7 -/

/-- C7: for every instant whose calendar fields render at their zero-padded
widths under the unpadded writer (four-digit displayed year, two-digit
displayed month, day, hour, minute and second), `parse` of `format` of the
instant succeeds and reproduces all six calendar fields exactly. -/
theorem c7_timestamp_roundtrip (tm : Tm) (ms : Nat)
    (hy1 : 1000 ≤ tm.tm_year + 1900) (hy2 : tm.tm_year + 1900 ≤ 9999)
    (hmo1 : 10 ≤ tm.tm_mon + 1) (hmo2 : tm.tm_mon + 1 ≤ 99)
    (hd1 : 10 ≤ tm.tm_mday) (hd2 : tm.tm_mday ≤ 99)
    (hh1 : 10 ≤ tm.tm_hour) (hh2 : tm.tm_hour ≤ 99)
    (hmi1 : 10 ≤ tm.tm_min) (hmi2 : tm.tm_min ≤ 99)
    (hs1 : 10 ≤ tm.tm_sec) (hs2 : tm.tm_sec ≤ 99) :
    parseTime (getCurrentTime tm ms) = some tm := by
  have hshape : getCurrentTime tm ms
      = natDigits (tm.tm_year + 1900).toNat ++ ('-' :: (natDigits (tm.tm_mon + 1).toNat
        ++ ('-' :: (natDigits tm.tm_mday.toNat
        ++ (' ' :: (natDigits tm.tm_hour.toNat ++ (':' :: (natDigits tm.tm_min.toNat
        ++ (':' :: (natDigits tm.tm_sec.toNat ++ ('.' :: natDigits ms))))))))))) := by
    rw [getCurrentTime,
      intToDecString_of_nonneg (show (0:Int) ≤ tm.tm_year + 1900 by omega),
      intToDecString_of_nonneg (show (0:Int) ≤ tm.tm_mon + 1 by omega),
      intToDecString_of_nonneg (show (0:Int) ≤ tm.tm_mday by omega),
      intToDecString_of_nonneg (show (0:Int) ≤ tm.tm_hour by omega),
      intToDecString_of_nonneg (show (0:Int) ≤ tm.tm_min by omega),
      intToDecString_of_nonneg (show (0:Int) ≤ tm.tm_sec by omega)]
    simp [List.append_assoc]
  have hY : (natDigits (tm.tm_year + 1900).toNat).length = 4 :=
    natDigits_length 3 _ (by norm_num; omega) (by norm_num; omega)
  have hMO : (natDigits (tm.tm_mon + 1).toNat).length = 2 :=
    natDigits_length 1 _ (by norm_num; omega) (by norm_num; omega)
  have hD : (natDigits tm.tm_mday.toNat).length = 2 :=
    natDigits_length 1 _ (by norm_num; omega) (by norm_num; omega)
  have hH : (natDigits tm.tm_hour.toNat).length = 2 :=
    natDigits_length 1 _ (by norm_num; omega) (by norm_num; omega)
  have hMI : (natDigits tm.tm_min.toNat).length = 2 :=
    natDigits_length 1 _ (by norm_num; omega) (by norm_num; omega)
  have hS : (natDigits tm.tm_sec.toNat).length = 2 :=
    natDigits_length 1 _ (by norm_num; omega) (by norm_num; omega)
  have hMS : 0 < (natDigits ms).length := natDigits_length_pos ms
  rw [hshape]
  rw [parseTime_fields (by rw [intMax]; omega) (by rw [intMax]; omega)
    (by rw [intMax]; omega) (by rw [intMax]; omega) (by rw [intMax]; omega)
    (by rw [intMax]; omega) (by decide) (by decide) (by decide) (by decide)
    (by decide) (by decide) (by decide) (by decide)
    (by rw [headNotDigit_cons]; decide)
    (by simp only [List.length_append, List.length_cons, hY, hMO, hD, hH, hMI, hS]; omega)]
  rw [Int.toNat_of_nonneg (show (0:Int) ≤ tm.tm_year + 1900 by omega),
    Int.toNat_of_nonneg (show (0:Int) ≤ tm.tm_mon + 1 by omega),
    Int.toNat_of_nonneg (show (0:Int) ≤ tm.tm_mday by omega),
    Int.toNat_of_nonneg (show (0:Int) ≤ tm.tm_hour by omega),
    Int.toNat_of_nonneg (show (0:Int) ≤ tm.tm_min by omega),
    Int.toNat_of_nonneg (show (0:Int) ≤ tm.tm_sec by omega),
    add_sub_cancel_right, add_sub_cancel_right]

/-- C7 witness: the instant 2024-10-12 10:15:22 (every field at its padded
width) with 417 milliseconds round-trips through format and parse. -/
theorem c7_timestamp_roundtrip_witness :
    parseTime (getCurrentTime ⟨124, 9, 12, 10, 15, 22⟩ 417)
      = some ⟨124, 9, 12, 10, 15, 22⟩ :=
  c7_timestamp_roundtrip ⟨124, 9, 12, 10, 15, 22⟩ 417 (by decide) (by decide)
    (by decide) (by decide) (by decide) (by decide) (by decide) (by decide)
    (by decide) (by decide) (by decide) (by decide)

/-! ## C4 -/

theorem timeOf_eq_of_parse {e : List Char} {tm : Tm}
    (hp : parseTime (e.take 19) = some tm) : timeOf e = mkTime tm := by
  rw [timeOf, entrySec, hp]
  rfl

theorem cleanOldEntries_eq_dropWhile : ∀ (buf : List (List Char)) (now maxAge : Int),
    ParsesAll buf →
    cleanOldEntries buf now maxAge = buf.dropWhile (expiredB now maxAge) := by
  intro buf
  induction buf with
  | nil => intro now maxAge _; rfl
  | cons e rest ih =>
    intro now maxAge h
    have hpe := h e (List.mem_cons_self e rest)
    cases hp : parseTime (e.take 19) with
    | none =>
      exfalso
      rw [entrySec, hp] at hpe
      simp at hpe
    | some tm =>
    have htime := timeOf_eq_of_parse hp
    rw [cleanOldEntries]
    simp only [hp, List.dropWhile_cons]
    by_cases hfresh : now - mkTime tm < maxAge
    · rw [if_pos hfresh]
      have hexp : expiredB now maxAge e = false := by
        rw [expiredB, htime]
        simp only [decide_eq_false_iff_not]
        omega
      rw [hexp]
      simp
    · rw [if_neg hfresh]
      have hexp : expiredB now maxAge e = true := by
        rw [expiredB, htime]
        simp only [decide_eq_true_eq]
        omega
      rw [hexp]
      simp only [if_pos rfl]
      exact ih now maxAge (fun x hx => h x (List.mem_cons_of_mem e hx))

theorem dropWhile_head_not {α : Type} {p : α → Bool} :
    ∀ (l : List α) {a : α} {t : List α}, l.dropWhile p = a :: t → p a = false := by
  intro l
  induction l with
  | nil => intro a t h; simp [List.dropWhile] at h
  | cons x xs ih =>
    intro a t h
    rw [List.dropWhile_cons] at h
    by_cases hx : p x = true
    · rw [if_pos hx] at h
      exact ih h
    · rw [if_neg hx] at h
      cases h
      exact Bool.not_eq_true _ ▸ Bool.of_not_eq_true hx

theorem fresh_of_dropWhile {buf : List (List Char)} {now maxAge : Int}
    (hm : TimeMono buf) :
    ∀ e ∈ buf.dropWhile (expiredB now maxAge), now - timeOf e < maxAge := by
  cases hres : buf.dropWhile (expiredB now maxAge) with
  | nil => intro e he; exact absurd he (List.not_mem_nil e)
  | cons hd t =>
    have hhead : expiredB now maxAge hd = false := dropWhile_head_not buf hres
    have hfresh_hd : now - timeOf hd < maxAge := by
      rw [expiredB, decide_eq_false_iff_not] at hhead
      omega
    have hsub : (hd :: t).Sublist buf := by
      rw [← hres]
      exact (List.dropWhile_suffix _).sublist
    have hsorted : List.Sorted (· ≤ ·) ((hd :: t).map timeOf) :=
      List.Pairwise.sublist (hsub.map timeOf) hm
    intro e he
    rcases List.mem_cons.mp he with rfl | he
    · exact hfresh_hd
    · have hle : timeOf hd ≤ timeOf e := by
        rw [List.map_cons, List.sorted_cons] at hsorted
        exact hsorted.1 (timeOf e) (List.mem_map_of_mem timeOf he)
      omega

theorem reach_preserves {maxAge : Int} {b0 b1 : List (List Char)}
    (hr : Reach maxAge b0 b1) (hp : ParsesAll b0) (hm : TimeMono b0) :
    ParsesAll b1 ∧ TimeMono b1 := by
  induction hr with
  | refl => exact ⟨hp, hm⟩
  | app e h hpe hle ih =>
    rename_i buf'
    obtain ⟨ihp, ihm⟩ := ih
    constructor
    · intro x hx
      rcases List.mem_append.mp hx with hx | hx
      · exact ihp x hx
      · rw [List.mem_singleton] at hx
        subst hx
        exact hpe
    · have hpw : List.Pairwise (· ≤ ·) (List.map timeOf buf' ++ List.map timeOf [e]) := by
        rw [List.pairwise_append]
        refine ⟨ihm, List.pairwise_singleton _ _, ?_⟩
        intro a ha b hb
        simp only [List.map_cons, List.map_nil, List.mem_singleton] at hb
        obtain ⟨x, hx, rfl⟩ := List.mem_map.mp ha
        subst hb
        exact hle x hx
      rw [TimeMono, List.map_append]
      exact hpw
  | exp now h ih =>
    rename_i buf'
    obtain ⟨ihp, ihm⟩ := ih
    have hsub := (cleanOldEntries_isSuffix buf' now maxAge).sublist
    exact ⟨fun x hx => ihp x (hsub.subset hx),
      List.Pairwise.sublist (hsub.map timeOf) ihm⟩

/-- C4: starting from any buffer whose records all carry parseable
timestamps, monotone from head (oldest) to tail, and applying any sequence
of real-time appends and expiry passes with a fixed `max_age`: the buffer
stays parseable and ordered by timestamp throughout, and an expiry pass at
any instant `now` removes exactly a head segment (the result is a suffix),
stops at the first non-expired record (it equals `dropWhile expired`),
leaves the buffer ordered, and afterwards every retained record `r`
satisfies `now - r.timestamp < max_age`. -/
theorem c4_retention_invariant (maxAge : Int) (b0 b1 : List (List Char))
    (h0p : ParsesAll b0) (h0m : TimeMono b0) (hr : Reach maxAge b0 b1) :
    ParsesAll b1 ∧ TimeMono b1 ∧
      ∀ now : Int,
        cleanOldEntries b1 now maxAge = b1.dropWhile (expiredB now maxAge) ∧
        cleanOldEntries b1 now maxAge <:+ b1 ∧
        (∀ e ∈ cleanOldEntries b1 now maxAge, now - timeOf e < maxAge) ∧
        TimeMono (cleanOldEntries b1 now maxAge) := by
  obtain ⟨h1p, h1m⟩ := reach_preserves hr h0p h0m
  refine ⟨h1p, h1m, fun now => ⟨cleanOldEntries_eq_dropWhile b1 now maxAge h1p,
    cleanOldEntries_isSuffix b1 now maxAge, ?_, ?_⟩⟩
  · rw [cleanOldEntries_eq_dropWhile b1 now maxAge h1p]
    exact fresh_of_dropWhile h1m
  · exact List.Pairwise.sublist
      (((cleanOldEntries_isSuffix b1 now maxAge).sublist).map timeOf) h1m

/-- C4 witness: a concrete two-record history (one initial record, one
append five seconds later) expired one step later behaves as the claim
states. -/
theorem c4_retention_invariant_witness :
    cleanOldEntries
        [("2024-10-12 10:00:00.0: 21.5").data, ("2024-10-12 10:00:05.0: 22.5").data]
        (mkTime ⟨124, 9, 12, 10, 0, 6⟩) 86400
      = [("2024-10-12 10:00:00.0: 21.5").data,
          ("2024-10-12 10:00:05.0: 22.5").data].dropWhile
          (expiredB (mkTime ⟨124, 9, 12, 10, 0, 6⟩) 86400) :=
  ((c4_retention_invariant 86400 [("2024-10-12 10:00:00.0: 21.5").data]
      [("2024-10-12 10:00:00.0: 21.5").data, ("2024-10-12 10:00:05.0: 22.5").data]
      (by unfold ParsesAll; decide) (by unfold TimeMono; decide)
      (Reach.app (("2024-10-12 10:00:05.0: 22.5").data)
        (Reach.refl [("2024-10-12 10:00:00.0: 21.5").data]) (by decide) (by decide))).2.2
    (mkTime ⟨124, 9, 12, 10, 0, 6⟩)).1

/-! ## C5 -/

theorem specValues_cons (e : List Char) (rest : List (List Char)) (now lookback : Int) :
    specValues (e :: rest) now lookback
      = if specQualifies now lookback e = true then
          (match entryValue e with
           | some v => v :: specValues rest now lookback
           | none => specValues rest now lookback)
        else specValues rest now lookback := by
  rw [specValues, specValues, List.filter_cons]
  by_cases hq : specQualifies now lookback e = true
  · rw [if_pos hq, if_pos hq, List.filterMap_cons]
    cases entryValue e <;> rfl
  · rw [if_neg hq, if_neg hq]

theorem avgFold_eq_specValues {now lookback : Int} : ∀ log : List (List Char),
    ParsesAll log → ∀ acc : ℚ × Nat,
    log.foldl (avgStep now lookback) acc
      = (acc.1 + (specValues log now lookback).sum,
          acc.2 + (specValues log now lookback).length) := by
  intro log
  induction log with
  | nil => intro _ acc; simp [specValues]
  | cons e rest ih =>
    intro h acc
    have hrest : ParsesAll rest := fun x hx => h x (List.mem_cons_of_mem e hx)
    have hpe := h e (List.mem_cons_self e rest)
    rw [List.foldl_cons, specValues_cons]
    cases hp : parseTime (e.take 19) with
    | none =>
      exfalso
      rw [entrySec, hp] at hpe
      simp at hpe
    | some tm =>
      have htime := timeOf_eq_of_parse hp
      rw [avgStep]
      simp only [hp]
      by_cases hq : now - mkTime tm < lookback
      · have hsq : specQualifies now lookback e = true := by
          rw [specQualifies, htime]
          simp [hq]
        rw [if_pos hq, if_pos hsq]
        cases halc : afterLastColon e with
        | none =>
          have hev : entryValue e = none := by rw [entryValue]; simp only [halc]
          simp only [halc, hev]
          exact ih hrest acc
        | some t =>
          cases hst : stod (trimSpaces t) with
          | none =>
            have hev : entryValue e = none := by rw [entryValue]; simp only [halc, hst]
            simp only [halc, hst, hev]
            exact ih hrest acc
          | some v =>
            have hev : entryValue e = some v := by rw [entryValue]; simp only [halc, hst]
            simp only [halc, hst, hev]
            rw [ih hrest (acc.1 + v, acc.2 + 1)]
            rw [Prod.mk.injEq]
            refine ⟨by simp; ring, by simp; omega⟩
      · have hsq : specQualifies now lookback e = false := by
          rw [specQualifies, htime]
          simp [hq]
        rw [if_neg hq, if_neg (by simp [hsq])]
        exact ih hrest acc

/-- C5: on snapshots whose records all carry parseable timestamps,
`calculateAverageTemperature` equals the spec-side mean: the arithmetic
mean of the numeric values parsed from the trailing field (text after the
last colon, trimmed of spaces) of exactly the records inside the lookback
window, records whose trailing field fails to parse being silently
excluded; and on the three qualifying records with payloads
`"20.0"`, `"22.0"`, `"24.0"` it returns exactly `22.0`. -/
theorem c5_average_is_trailing_field_mean :
    (∀ (log : List (List Char)) (now lookback : Int), ParsesAll log →
        calculateAverageTemperature log now lookback = specMean log now lookback) ∧
      calculateAverageTemperature
          [("2024-10-12 10:00:00.0: 20.0").data, ("2024-10-12 10:00:01.0: 22.0").data,
            ("2024-10-12 10:00:02.0: 24.0").data]
          (mkTime ⟨124, 9, 12, 10, 0, 30⟩) 3600 = 22 := by
  constructor
  · intro log now lookback hp
    rw [calculateAverageTemperature, avgFold_eq_specValues log hp (0, 0), specMean]
    cases hvs : specValues log now lookback with
    | nil => simp [hvs]
    | cons v vs => simp [hvs]
  · have h : calculateAverageTemperature
        [("2024-10-12 10:00:00.0: 20.0").data, ("2024-10-12 10:00:01.0: 22.0").data,
          ("2024-10-12 10:00:02.0: 24.0").data]
        (mkTime ⟨124, 9, 12, 10, 0, 30⟩) 3600
        = (0 + ((digitsVal ['2','0'] : ℚ) + fracVal ['0'])
            + ((digitsVal ['2','2'] : ℚ) + fracVal ['0'])
            + ((digitsVal ['2','4'] : ℚ) + fracVal ['0'])) / ((3 : ℕ) : ℚ) := rfl
    rw [h]
    norm_num [digitsVal, fracVal, show ('2').toNat = 50 from rfl,
      show ('0').toNat = 48 from rfl, show ('4').toNat = 52 from rfl]

/-- C5 witness: the refinement applied to a one-record parseable snapshot. -/
theorem c5_average_is_trailing_field_mean_witness :
    calculateAverageTemperature [("2024-10-12 10:00:00.0: 21.5").data]
        (mkTime ⟨124, 9, 12, 10, 0, 30⟩) 3600
      = specMean [("2024-10-12 10:00:00.0: 21.5").data]
          (mkTime ⟨124, 9, 12, 10, 0, 30⟩) 3600 :=
  c5_average_is_trailing_field_mean.1 [("2024-10-12 10:00:00.0: 21.5").data]
    (mkTime ⟨124, 9, 12, 10, 0, 30⟩) 3600 (by unfold ParsesAll; decide)
